import Mathlib

/-!
Verification of the rust-transaction-decoder repository (src/src/main.rs).

The embedding models byte buffers as `List Nat` (each element a byte value
below 256) and translates the readers of `main.rs` directly.

A load-bearing fact of the source: every reader calls `Read::read` on a
`&[u8]` slice (not `read_exact`).  The standard-library implementation
`impl Read for &[u8]` copies `min(buf.len(), self.len())` bytes into the
pre-zeroed buffer, advances the slice by that amount, and returns `Ok(n)`;
it never returns `Err`.  Consequently every reader in `main.rs` is total
(the `?` operators are dead code) and a short read silently leaves the
remaining buffer positions at their zero initialisation.  The embedding
therefore makes the readers total functions, and `readFill` reproduces the
zero-padding behaviour exactly.
-/

namespace TxDecoder

/-- The semantics of `let mut buffer = [0; n]; transaction_bytes.read(&mut buffer)`
on a `&[u8]` slice: the buffer receives `min n s.length` bytes from the front of
the slice and keeps its zero initialisation past that; the slice advances by the
same amount.  Returns (filled buffer, remaining slice). -/
def readFill (n : Nat) (s : List Nat) : List Nat × List Nat :=
  (s.take n ++ List.replicate (n - s.length) 0, s.drop n)

/-- `uNN::from_le_bytes`: little-endian byte list to natural number. -/
def fromLE (bs : List Nat) : Nat :=
  bs.foldr (fun b acc => b + 256 * acc) 0

/-- `read_compact_size` from main.rs: one prefix byte (zero if the buffer is
empty, from the zero-initialised 1-byte buffer), then 0, 2, 4 or 8 further
little-endian payload bytes according to the prefix. -/
def read_compact_size (s : List Nat) : Nat × List Nat :=
  let r1 := readFill 1 s
  let b := r1.1.headD 0
  if b ≤ 252 then (b, r1.2)
  else if b = 253 then
    let r2 := readFill 2 r1.2
    (fromLE r2.1, r2.2)
  else if b = 254 then
    let r4 := readFill 4 r1.2
    (fromLE r4.1, r4.2)
  else
    let r8 := readFill 8 r1.2
    (fromLE r8.1, r8.2)

/-- `read_u32` from main.rs: 4 bytes, little-endian. -/
def read_u32 (s : List Nat) : Nat × List Nat :=
  let r := readFill 4 s
  (fromLE r.1, r.2)

/-- `read_amount` from main.rs: 8 bytes, little-endian, wrapped as Amount
(`Amount::from_sat`, modelled as the bare satoshi count, see `Amount`). -/
def read_amount (s : List Nat) : Nat × List Nat :=
  let r := readFill 8 s
  (fromLE r.1, r.2)

/-- `read_txid` from main.rs: 32 raw bytes stored verbatim
(`Txid::from_bytes`, modelled as the bare byte list, see `Txid`). -/
def read_txid (s : List Nat) : List Nat × List Nat :=
  readFill 32 s

/-- The lowercase hex digit table of `hex::encode`. -/
def hexTable : List Char :=
  String.data "0123456789abcdef"

/-- One byte to two lowercase hex characters: table[b >> 4], table[b & 0x0f]. -/
def byteToHex (b : Nat) : List Char :=
  [hexTable.getD (b / 16) '0', hexTable.getD (b % 16) '0']

/-- `hex::encode` as a character list: each byte to two lowercase hex digits. -/
def hexEncodeChars (bs : List Nat) : List Char :=
  (bs.map byteToHex).flatten

/-- `hex::encode`: lowercase hexadecimal string, no prefix. -/
def hexEncode (bs : List Nat) : String :=
  String.mk (hexEncodeChars bs)

/-- `read_script` from main.rs: a compact-size length L, then a read into a
pre-zeroed buffer of exactly L bytes (zero-padded when fewer remain),
rendered with `hex::encode`. -/
def read_script (s : List Nat) : String × List Nat :=
  let rl := read_compact_size s
  let rb := readFill rl.1 rl.2
  (hexEncode rb.1, rb.2)

/-- The error cases of `hex::decode`: odd input length, or a character outside
[0-9a-fA-F]. -/
inductive HexError where
  | oddLength : HexError
  | invalidChar (c : Char) : HexError
  deriving DecidableEq, Repr

/-- The value of one hex character, per the hex crate: digits, lowercase and
uppercase letters accepted; anything else is invalid. -/
def hexDigitVal (c : Char) : Option Nat :=
  if '0' ≤ c ∧ c ≤ '9' then some (c.toNat - 48)
  else if 'a' ≤ c ∧ c ≤ 'f' then some (c.toNat - 87)
  else if 'A' ≤ c ∧ c ≤ 'F' then some (c.toNat - 55)
  else none

/-- Pairwise decoding of an even-length character list into bytes, failing at
the first invalid character. -/
def hexPairs : List Char → Except HexError (List Nat)
  | [] => .ok []
  | [_] => .error .oddLength
  | c1 :: c2 :: rest =>
    match hexDigitVal c1 with
    | none => .error (.invalidChar c1)
    | some hi =>
      match hexDigitVal c2 with
      | none => .error (.invalidChar c2)
      | some lo => (hexPairs rest).map (fun bs => (16 * hi + lo) :: bs)

/-- `hex::decode`: fails on odd length or any non-hex character, otherwise
yields the byte buffer. -/
def hexDecode (s : String) : Except HexError (List Nat) :=
  if s.data.length % 2 = 1 then .error .oddLength else hexPairs s.data

/-- SHA-256 round constants (the sha2 crate's K32 table). -/
def shaK : List Nat :=
  [1116352408, 1899447441, 3049323471, 3921009573, 961987163,
   1508970993, 2453635748, 2870763221, 3624381080, 310598401,
   607225278, 1426881987, 1925078388, 2162078206, 2614888103,
   3248222580, 3835390401, 4022224774, 264347078, 604807628,
   770255983, 1249150122, 1555081692, 1996064986, 2554220882,
   2821834349, 2952996808, 3210313671, 3336571891, 3584528711,
   113926993, 338241895, 666307205, 773529912, 1294757372,
   1396182291, 1695183700, 1986661051, 2177026350, 2456956037,
   2730485921, 2820302411, 3259730800, 3345764771, 3516065817,
   3600352804, 4094571909, 275423344, 430227734, 506948616,
   659060556, 883997877, 958139571, 1322822218, 1537002063,
   1747873779, 1955562222, 2024104815, 2227730452, 2361852424,
   2428436474, 2756734187, 3204031479, 3329325298]

/-- SHA-256 initial hash state. -/
def shaH0 : List Nat :=
  [1779033703, 3144134277, 1013904242, 2773480762, 1359893119,
   2600822924, 528734635, 1541459225]

/-- 32-bit rotate right. -/
def rotr32 (n x : Nat) : Nat :=
  ((x >>> n) ||| (x <<< (32 - n))) % 4294967296

/-- A natural number as `k` big-endian bytes. -/
def beBytes (k n : Nat) : List Nat :=
  (List.range k).map (fun i => (n >>> (8 * (k - 1 - i))) % 256)

/-- Group a byte list into 32-bit big-endian words. -/
def wordsBE : List Nat → List Nat
  | b0 :: b1 :: b2 :: b3 :: rest =>
    (((b0 * 256 + b1) * 256 + b2) * 256 + b3) :: wordsBE rest
  | _ => []

/-- SHA-256 padding: append 0x80, zeros to 56 mod 64, and the 64-bit
big-endian bit length. -/
def shaPad (msg : List Nat) : List Nat :=
  let padZeros := (119 - msg.length % 64) % 64
  msg ++ [0x80] ++ List.replicate padZeros 0 ++ beBytes 8 (8 * msg.length)

/-- Extend the 16 message-schedule words to 64. -/
def extendW (fuel : Nat) (w : List Nat) : List Nat :=
  match fuel with
  | 0 => w
  | fuel + 1 =>
    let n := w.length
    let g := fun i => w.getD (n - i) 0
    let s0 := (rotr32 7 (g 15)) ^^^ (rotr32 18 (g 15)) ^^^ ((g 15) >>> 3)
    let s1 := (rotr32 17 (g 2)) ^^^ (rotr32 19 (g 2)) ^^^ ((g 2) >>> 10)
    extendW fuel (w ++ [(g 16 + s0 + g 7 + s1) % 4294967296])

/-- One SHA-256 compression round. -/
def shaRound (st : List Nat) (kw : Nat × Nat) : List Nat :=
  let va := st.getD 0 0
  let vb := st.getD 1 0
  let vc := st.getD 2 0
  let vd := st.getD 3 0
  let ve := st.getD 4 0
  let vf := st.getD 5 0
  let vg := st.getD 6 0
  let vh := st.getD 7 0
  let s1 := (rotr32 6 ve) ^^^ (rotr32 11 ve) ^^^ (rotr32 25 ve)
  let ch := (ve &&& vf) ^^^ ((4294967295 - ve) &&& vg)
  let temp1 := (vh + s1 + ch + kw.1 + kw.2) % 4294967296
  let s0 := (rotr32 2 va) ^^^ (rotr32 13 va) ^^^ (rotr32 22 va)
  let maj := (va &&& vb) ^^^ (va &&& vc) ^^^ (vb &&& vc)
  let temp2 := (s0 + maj) % 4294967296
  [(temp1 + temp2) % 4294967296, va, vb, vc, (vd + temp1) % 4294967296, ve, vf, vg]

/-- Compress one 64-byte block into the running hash state. -/
def shaCompress (H : List Nat) (block : List Nat) : List Nat :=
  let w := extendW 48 (wordsBE block)
  let st := (shaK.zip w).foldl shaRound H
  (H.zip st).map (fun p => (p.1 + p.2) % 4294967296)

/-- Split a byte list into 64-byte chunks (fuel-structured so that it reduces
definitionally; the fuel is the list length, always sufficient). -/
def chunks64Fuel : Nat → List Nat → List (List Nat)
  | 0, _ => []
  | _, [] => []
  | fuel + 1, b :: rest => ((b :: rest).take 64) :: chunks64Fuel fuel ((b :: rest).drop 64)

/-- Split a byte list into 64-byte chunks. -/
def chunks64 (l : List Nat) : List (List Nat) :=
  chunks64Fuel l.length l

/-- SHA-256 of a byte list, as the 32 digest bytes. -/
def sha256 (msg : List Nat) : List Nat :=
  let H := (chunks64 (shaPad msg)).foldl shaCompress shaH0
  (H.map (beBytes 4)).flatten

/-- Modelled from the spec: the `transaction` module (Txid, Amount, Input,
Output, Transaction) is declared in main.rs (`mod transaction`) but its file is
not under src/.  Spec section 3: a Txid is a fixed 32-byte value, immutable,
stored verbatim (`Txid::from_bytes` stores the 32 raw bytes).  We model it as
its byte list. -/
abbrev Txid := List Nat

/-- Modelled from the spec: `Amount` is an unsigned 64-bit count of satoshis
(`Amount::from_sat` wraps the raw u64); modelled as the bare count. -/
abbrev Amount := Nat

/-- Modelled from the spec: an Input is { previous transaction reference,
output index, unlocking script (hex-rendered), sequence number }. -/
structure Input where
  txid : Txid
  output_index : Nat
  script_sig : String
  sequence : Nat
  deriving DecidableEq

/-- Modelled from the spec: an Output is { amount, locking script
(hex-rendered) }. -/
structure Output where
  amount : Amount
  script_pubkey : String
  deriving DecidableEq

/-- Modelled from the spec: a Transaction is { derived identifier, version,
inputs, outputs, lock time }. -/
structure Transaction where
  transaction_id : Txid
  version : Nat
  inputs : List Input
  outputs : List Output
  lock_time : Nat
  deriving DecidableEq

/-- `hash_raw_transaction` from main.rs: SHA-256 of the raw buffer, then
SHA-256 of the resulting digest, stored as a Txid. -/
def hash_raw_transaction (raw_transaction : List Nat) : Txid :=
  let hash1 := sha256 raw_transaction
  let hash2 := sha256 hash1
  hash2

/-- The input-reading loop of `decode`: for each of `count` iterations read
txid, output index (u32), script, sequence (u32), in that order. -/
def readInputs : Nat → List Nat → List Input × List Nat
  | 0, s => ([], s)
  | n + 1, s =>
    let rt := read_txid s
    let ri := read_u32 rt.2
    let rs := read_script ri.2
    let rq := read_u32 rs.2
    let rest := readInputs n rq.2
    (⟨rt.1, ri.1, rs.1, rq.1⟩ :: rest.1, rest.2)

/-- The output-reading loop of `decode`: for each of `count` iterations read
amount (u64) and script, in that order. -/
def readOutputs : Nat → List Nat → List Output × List Nat
  | 0, s => ([], s)
  | n + 1, s =>
    let ra := read_amount s
    let rs := read_script ra.2
    let rest := readOutputs n rs.2
    (⟨ra.1, rs.1⟩ :: rest.1, rest.2)

/-- The field-parsing portion of `decode`, driving the cursor across the
buffer: version, input count and inputs, output count and outputs, lock time.
Returns (version, inputs, outputs, lock time). -/
def decodeFields (s : List Nat) : Nat × List Input × List Output × Nat :=
  let rv := read_u32 s
  let ric := read_compact_size rv.2
  let rins := readInputs ric.1 ric.2
  let roc := read_compact_size rins.2
  let routs := readOutputs roc.1 roc.2
  let rlt := read_u32 routs.2
  (rv.1, rins.1, routs.1, rlt.1)

/-- The error type of `decode`: all reads are infallible (see the header note),
so the only reachable failure is the hex-decoding error, which main.rs maps
into its unified error ("Hex decode error: ...").  Final JSON serialization
(`serde_json::to_string_pretty`, out of scope per the spec) is the only other
structural failure and is unreachable. -/
inductive DecodeError where
  | hexDecodeError (e : HexError) : DecodeError
  deriving DecidableEq

/-- `decode` applied to a raw byte buffer: parse the fields with the cursor and
independently hash the entire original buffer for the identifier. -/
def decodeRaw (transaction_bytes : List Nat) : Transaction :=
  let f := decodeFields transaction_bytes
  { transaction_id := hash_raw_transaction transaction_bytes
  , version := f.1
  , inputs := f.2.1
  , outputs := f.2.2.1
  , lock_time := f.2.2.2 }

/-- `decode` from main.rs, up to the final JSON rendering: hex-decode the
input string (the only fallible step), then assemble the Transaction. -/
def decode (transaction_hex : String) : Except DecodeError Transaction :=
  match hexDecode transaction_hex with
  | .error e => .error (.hexDecodeError e)
  | .ok transaction_bytes => .ok (decodeRaw transaction_bytes)

/-- Instrumentation (not part of the source): the compact-size read at the
head of `s` is fully satisfied within the buffer (no zero-padded short read). -/
def csOk (s : List Nat) : Bool :=
  match s with
  | [] => false
  | b :: rest =>
    if b ≤ 252 then true
    else if b = 253 then decide (2 ≤ rest.length)
    else if b = 254 then decide (4 ≤ rest.length)
    else decide (8 ≤ rest.length)

/-- Instrumentation: the script read at the head of `s` is fully satisfied
within the buffer. -/
def scriptOk (s : List Nat) : Bool :=
  csOk s && decide ((read_compact_size s).1 ≤ (read_compact_size s).2.length)

/-- Instrumentation: reading `n` inputs from `s` never runs short. -/
def inputsOk : Nat → List Nat → Bool
  | 0, _ => true
  | n + 1, s =>
    decide (32 ≤ s.length) &&
    (let s1 := (read_txid s).2
     decide (4 ≤ s1.length) &&
     (let s2 := (read_u32 s1).2
      scriptOk s2 &&
      (let s3 := (read_script s2).2
       decide (4 ≤ s3.length) && inputsOk n (read_u32 s3).2)))

/-- Instrumentation: reading `n` outputs from `s` never runs short. -/
def outputsOk : Nat → List Nat → Bool
  | 0, _ => true
  | n + 1, s =>
    decide (8 ≤ s.length) &&
    (let s1 := (read_amount s).2
     scriptOk s1 && outputsOk n (read_script s1).2)

/-- Instrumentation: the whole field parse of `s` never runs short: every
read (version, counts, per-input and per-output fields, lock time) is fully
satisfied within the buffer. -/
def decodeFieldsOk (s : List Nat) : Bool :=
  decide (4 ≤ s.length) &&
  (let s1 := (read_u32 s).2
   csOk s1 &&
   (let ric := read_compact_size s1
    inputsOk ric.1 ric.2 &&
    (let s2 := (readInputs ric.1 ric.2).2
     csOk s2 &&
     (let roc := read_compact_size s2
      outputsOk roc.1 roc.2 &&
      decide (4 ≤ (readOutputs roc.1 roc.2).2.length)))))

/-! Append-stability of reads that do not run short.  These lemmas support the
trailing-bytes analysis: a read fully satisfied inside `s` returns the same
value on `s ++ e`, with the extra bytes passed through untouched. -/

theorem readFill_append (n : Nat) (s e : List Nat) (h : n ≤ s.length) :
    readFill n (s ++ e) = ((readFill n s).1, (readFill n s).2 ++ e) := by
  have h2 : n - (s ++ e).length = 0 := by simp; omega
  simp only [readFill, List.take_append_of_le_length h,
    List.drop_append_of_le_length h, h2, Nat.sub_eq_zero_of_le h]

theorem read_u32_append (s e : List Nat) (h : 4 ≤ s.length) :
    read_u32 (s ++ e) = ((read_u32 s).1, (read_u32 s).2 ++ e) := by
  simp [read_u32, readFill_append 4 s e h]

theorem read_amount_append (s e : List Nat) (h : 8 ≤ s.length) :
    read_amount (s ++ e) = ((read_amount s).1, (read_amount s).2 ++ e) := by
  simp [read_amount, readFill_append 8 s e h]

theorem read_txid_append (s e : List Nat) (h : 32 ≤ s.length) :
    read_txid (s ++ e) = ((read_txid s).1, (read_txid s).2 ++ e) :=
  readFill_append 32 s e h

theorem read_compact_size_append (s e : List Nat) (h : csOk s = true) :
    read_compact_size (s ++ e) =
      ((read_compact_size s).1, (read_compact_size s).2 ++ e) := by
  match s with
  | [] => simp [csOk] at h
  | b :: rest =>
    simp only [csOk] at h
    have hr1 : readFill 1 ((b :: rest) ++ e) = ([b], rest ++ e) := by
      simp [readFill]
    have hr1' : readFill 1 (b :: rest) = ([b], rest) := by
      simp [readFill]
    simp only [read_compact_size, hr1, hr1', List.headD]
    by_cases h252 : b ≤ 252
    · simp [h252]
    · simp only [h252, if_false] at h ⊢
      by_cases h253 : b = 253
      · simp only [h253, if_true] at h ⊢
        rw [readFill_append 2 rest e (by simpa using h)]
      · simp only [h253, if_false] at h ⊢
        by_cases h254 : b = 254
        · simp only [h254, if_true] at h ⊢
          rw [readFill_append 4 rest e (by simpa using h)]
        · simp only [h254, if_false] at h ⊢
          rw [readFill_append 8 rest e (by simpa using h)]

theorem read_script_append (s e : List Nat) (h : scriptOk s = true) :
    read_script (s ++ e) = ((read_script s).1, (read_script s).2 ++ e) := by
  simp only [scriptOk, Bool.and_eq_true, decide_eq_true_eq] at h
  obtain ⟨hcs, hlen⟩ := h
  simp only [read_script, read_compact_size_append s e hcs,
    readFill_append _ _ e hlen]

theorem readInputs_append (n : Nat) (s e : List Nat) (h : inputsOk n s = true) :
    readInputs n (s ++ e) = ((readInputs n s).1, (readInputs n s).2 ++ e) := by
  induction n generalizing s with
  | zero => simp [readInputs]
  | succ n ih =>
    simp only [inputsOk, Bool.and_eq_true, decide_eq_true_eq] at h
    obtain ⟨h32, h4a, hscript, h4b, hrest⟩ := h
    simp only [readInputs, read_txid_append s e h32,
      read_u32_append _ e h4a, read_script_append _ e hscript,
      read_u32_append _ e h4b, ih _ hrest]

theorem readOutputs_append (n : Nat) (s e : List Nat) (h : outputsOk n s = true) :
    readOutputs n (s ++ e) = ((readOutputs n s).1, (readOutputs n s).2 ++ e) := by
  induction n generalizing s with
  | zero => simp [readOutputs]
  | succ n ih =>
    simp only [outputsOk, Bool.and_eq_true, decide_eq_true_eq] at h
    obtain ⟨h8, hscript, hrest⟩ := h
    simp only [readOutputs, read_amount_append s e h8,
      read_script_append _ e hscript, ih _ hrest]

theorem decodeFields_append (s e : List Nat) (h : decodeFieldsOk s = true) :
    decodeFields (s ++ e) = decodeFields s := by
  simp only [decodeFieldsOk, Bool.and_eq_true, decide_eq_true_eq] at h
  obtain ⟨h4v, hcs1, hins, hcs2, houts, h4lt⟩ := h
  simp only [decodeFields, read_u32_append s e h4v,
    read_compact_size_append _ e hcs1, readInputs_append _ _ e hins,
    read_compact_size_append _ e hcs2, readOutputs_append _ _ e houts,
    read_u32_append _ e h4lt]

/-! Facts about the hex rendering used by `read_script`. -/

theorem hexEncodeChars_length (bs : List Nat) :
    (hexEncodeChars bs).length = 2 * bs.length := by
  induction bs with
  | nil => rfl
  | cons b t ih =>
    simp only [hexEncodeChars, List.map_cons, List.flatten_cons] at ih ⊢
    simp [byteToHex, ih]
    omega

theorem hexEncodeChars_append (a b : List Nat) :
    hexEncodeChars (a ++ b) = hexEncodeChars a ++ hexEncodeChars b := by
  simp [hexEncodeChars]

theorem hexEncodeChars_replicate_zero (k : Nat) :
    hexEncodeChars (List.replicate k 0) = List.replicate (2 * k) '0' := by
  induction k with
  | zero => rfl
  | succ k ih =>
    simp only [List.replicate_succ, hexEncodeChars, List.map_cons,
      List.flatten_cons] at ih ⊢
    rw [ih]
    have : 2 * (k + 1) = (2 * k) + 1 + 1 := by omega
    rw [this, List.replicate_succ, List.replicate_succ]
    rfl

theorem getD_hexTable_mem (i : Nat) : hexTable.getD i '0' ∈ hexTable := by
  by_cases h : i < hexTable.length
  · rw [List.getD_eq_getElem _ _ h]
    exact List.getElem_mem h
  · rw [List.getD_eq_default _ _ (le_of_not_lt h)]
    decide

theorem hexEncodeChars_mem (bs : List Nat) (c : Char)
    (h : c ∈ hexEncodeChars bs) : c ∈ hexTable := by
  induction bs with
  | nil => simp [hexEncodeChars] at h
  | cons b t ih =>
    simp only [hexEncodeChars, List.map_cons, List.flatten_cons, byteToHex,
      List.cons_append, List.mem_cons] at h
    rcases h with h | h | h
    · rw [h]; exact getD_hexTable_mem _
    · rw [h]; exact getD_hexTable_mem _
    · exact ih (by simpa [hexEncodeChars] using h)

/-! Facts about `hex::decode`. -/

theorem exceptMap_toOption_none (x : Except HexError (List Nat))
    (f : List Nat → List Nat) :
    ((x.map f).toOption = none) ↔ (x.toOption = none) := by
  cases x <;> simp [Except.map, Except.toOption]

theorem hexPairs_none_iff : ∀ l : List Char, l.length % 2 = 0 →
    ((hexPairs l).toOption = none ↔ ∃ c ∈ l, hexDigitVal c = none)
  | [] => by simp [hexPairs, Except.toOption]
  | [c] => by intro h; simp at h
  | c1 :: c2 :: rest => by
    intro h
    have heven : rest.length % 2 = 0 := by simp at h; omega
    have ih := hexPairs_none_iff rest heven
    simp only [hexPairs]
    rcases hv1 : hexDigitVal c1 with _ | hi
    · simp only [Except.toOption]
      exact iff_of_true trivial ⟨c1, by simp, hv1⟩
    · rcases hv2 : hexDigitVal c2 with _ | lo
      · simp only [Except.toOption]
        exact iff_of_true trivial ⟨c2, by simp, hv2⟩
      · rw [exceptMap_toOption_none, ih]
        constructor
        · rintro ⟨c, hc, hn⟩
          exact ⟨c, by simp [hc], hn⟩
        · rintro ⟨c, hc, hn⟩
          simp only [List.mem_cons] at hc
          rcases hc with rfl | rfl | hc
          · rw [hv1] at hn; simp at hn
          · rw [hv2] at hn; simp at hn
          · exact ⟨c, hc, hn⟩

theorem hexDecode_none_iff (s : String) :
    (hexDecode s).toOption = none ↔
      (s.data.length % 2 = 1 ∨ ∃ c ∈ s.data, hexDigitVal c = none) := by
  unfold hexDecode
  by_cases h : s.data.length % 2 = 1
  · rw [if_pos h]
    exact iff_of_true rfl (Or.inl h)
  · have heven : s.data.length % 2 = 0 := by omega
    rw [if_neg h, hexPairs_none_iff s.data heven]
    exact (or_iff_right h).symm

/-- Claim C1: the claim states that every short read fails with an
InsufficientData error and that a hex string truncated mid-field (input count
1 but no input bytes) fails with InsufficientDataError and never returns a
zero-padded field value.  The code contradicts this: `Read::read` on a slice
never fails, so decoding "0100000001" (version 1, input count 1, no input
bytes) succeeds and returns a fully zero-padded input (txid of 32 zero bytes,
output index 0, empty script, sequence 0). -/
theorem claim1_short_read_zero_pads :
    ((decode "0100000001").toOption.map Transaction.version) = some 1 ∧
    ((decode "0100000001").toOption.map Transaction.inputs) =
      some [{ txid := List.replicate 32 0, output_index := 0,
              script_sig := "", sequence := 0 }] ∧
    ((decode "0100000001").toOption.map Transaction.outputs) = some [] ∧
    ((decode "0100000001").toOption.map Transaction.lock_time) = some 0 := by
  decide

/-- Claim C2: compact-size decoding: a first byte in 0-252 is the value itself
with exactly 1 byte consumed; prefix 253/254/255 read 2/4/8 further bytes as a
little-endian value; [0xFD,0x00,0x01] decodes to 256, [0xFE,0,0,0,1] to 256^3,
[0xFF,0,0,0,0,0,0,0,1] to 256^7, and hex "fd204e" to 20000. -/
theorem claim2_compact_size :
    (∀ b s, b ≤ 252 → read_compact_size (b :: s) = (b, s)) ∧
    (∀ b0 b1 s, read_compact_size (253 :: b0 :: b1 :: s) = (b0 + 256 * b1, s)) ∧
    (∀ b0 b1 b2 b3 s, read_compact_size (254 :: b0 :: b1 :: b2 :: b3 :: s) =
      (b0 + 256 * (b1 + 256 * (b2 + 256 * b3)), s)) ∧
    (∀ b0 b1 b2 b3 b4 b5 b6 b7 s,
      read_compact_size
          (255 :: b0 :: b1 :: b2 :: b3 :: b4 :: b5 :: b6 :: b7 :: s) =
        (b0 + 256 * (b1 + 256 * (b2 + 256 * (b3 + 256 *
          (b4 + 256 * (b5 + 256 * (b6 + 256 * b7)))))), s)) ∧
    read_compact_size [253, 0, 1] = (256, []) ∧
    read_compact_size [254, 0, 0, 0, 1] = (16777216, []) ∧
    read_compact_size [255, 0, 0, 0, 0, 0, 0, 0, 1] = (72057594037927936, []) ∧
    (hexDecode "fd204e").map (fun bs => (read_compact_size bs).1) =
      Except.ok 20000 := by
  refine ⟨?_, ?_, ?_, ?_, by decide, by decide, by decide, by rfl⟩
  · intro b s h
    simp [read_compact_size, readFill, h]
  · intro b0 b1 s
    have h2 : 2 - (s.length + 2) = 0 := by omega
    simp [read_compact_size, readFill, fromLE, h2]
  · intro b0 b1 b2 b3 s
    have h4 : 4 - (s.length + 4) = 0 := by omega
    simp [read_compact_size, readFill, fromLE, h4]
  · intro b0 b1 b2 b3 b4 b5 b6 b7 s
    have h8 : 8 - (s.length + 8) = 0 := by omega
    simp [read_compact_size, readFill, fromLE, h8]

/-- Witness for C2 at a concrete input: first byte 5 (in 0-252) with one
further byte decodes to 5 and consumes exactly the prefix byte. -/
theorem claim2_compact_size_witness :
    read_compact_size [5, 7] = (5, [7]) :=
  claim2_compact_size.1 5 [7] (by decide)

set_option maxRecDepth 10000 in
/-- Claim C3: the 10-byte hex string "01000000000000000000" decodes to
version 1, no inputs, no outputs, lock time 0, and a transaction id equal to
the double SHA-256 of exactly those 10 raw bytes. -/
theorem claim3_minimal_transaction :
    (decode "01000000000000000000").toOption =
      some { transaction_id := sha256 (sha256 [1, 0, 0, 0, 0, 0, 0, 0, 0, 0])
           , version := 1, inputs := [], outputs := [], lock_time := 0 } := by
  decide

/-- Claim C4: the transaction identifier of a decoded buffer is the
cryptographic hash applied twice to the entire raw byte buffer, and every
other field comes from the cursor-driven field parse alone (the hash consumes
nothing from the cursor and never reads the parsed fields). -/
theorem claim4_txid_double_hash (transaction_bytes : List Nat) :
    (decodeRaw transaction_bytes).transaction_id =
        sha256 (sha256 transaction_bytes) ∧
    (decodeRaw transaction_bytes).version =
        (decodeFields transaction_bytes).1 ∧
    (decodeRaw transaction_bytes).inputs =
        (decodeFields transaction_bytes).2.1 ∧
    (decodeRaw transaction_bytes).outputs =
        (decodeFields transaction_bytes).2.2.1 ∧
    (decodeRaw transaction_bytes).lock_time =
        (decodeFields transaction_bytes).2.2.2 := by
  refine ⟨rfl, rfl, rfl, rfl, rfl⟩

/-- Claim C5: decode fails (with the hex-decoding error) exactly on the
strings of odd length or containing a non-hex character; on every other
string hex decoding succeeds and the decode proceeds to a Transaction. -/
theorem claim5_hex_error_iff (s : String) :
    ((∃ e, decode s = Except.error (DecodeError.hexDecodeError e)) ↔
      (s.data.length % 2 = 1 ∨ ∃ c ∈ s.data, hexDigitVal c = none)) ∧
    (¬ (s.data.length % 2 = 1 ∨ ∃ c ∈ s.data, hexDigitVal c = none) →
      ∃ transaction_bytes, hexDecode s = Except.ok transaction_bytes ∧
        decode s = Except.ok (decodeRaw transaction_bytes)) := by
  have hnone := hexDecode_none_iff s
  rcases hd : hexDecode s with e | bs
  · rw [hd] at hnone
    have hbad : s.data.length % 2 = 1 ∨ ∃ c ∈ s.data, hexDigitVal c = none :=
      hnone.mp rfl
    constructor
    · exact iff_of_true ⟨e, by simp [decode, hd]⟩ hbad
    · intro hn
      exact absurd hbad hn
  · rw [hd] at hnone
    have hgood : ¬ (s.data.length % 2 = 1 ∨ ∃ c ∈ s.data, hexDigitVal c = none) := by
      intro hb
      have := hnone.mpr hb
      simp [Except.toOption] at this
    constructor
    · refine iff_of_false ?_ hgood
      rintro ⟨e, he⟩
      simp [decode, hd] at he
    · intro _
      exact ⟨bs, rfl, by simp [decode, hd]⟩

/-- Witness for C5 at a concrete input: "fd204e" is even-length all-hex, so
hex decoding succeeds and the decode proceeds. -/
theorem claim5_hex_error_iff_witness :
    ∃ transaction_bytes, hexDecode "fd204e" = Except.ok transaction_bytes ∧
      decode "fd204e" = Except.ok (decodeRaw transaction_bytes) :=
  (claim5_hex_error_iff "fd204e").2 (by decide)

/-- Counterexample to claim C6 as stated: every byte buffer decodes
successfully in this code (reads never fail), so the claim quantifies over
all buffers; but extending the (successfully decoding) empty buffer with the
trailing byte 1 changes the parsed version from 0 to 1, because the version
read of the empty buffer was a zero-padded short read. -/
theorem claim6_counterexample :
    (decodeRaw []).version = 0 ∧ (decodeRaw ([] ++ [1])).version = 1 := by
  decide

/-- Claim C6 (amended): the decoder performs no full-consumption check, and
for every byte buffer whose field parse never runs short (every read fully
satisfied within the buffer), appending arbitrary trailing bytes leaves the
parsed version, inputs, outputs and lock time unchanged; the extended buffer
still decodes successfully (decoding is total). -/
theorem claim6_trailing_bytes (b extra : List Nat)
    (h : decodeFieldsOk b = true) :
    (decodeRaw (b ++ extra)).version = (decodeRaw b).version ∧
    (decodeRaw (b ++ extra)).inputs = (decodeRaw b).inputs ∧
    (decodeRaw (b ++ extra)).outputs = (decodeRaw b).outputs ∧
    (decodeRaw (b ++ extra)).lock_time = (decodeRaw b).lock_time := by
  have hd := decodeFields_append b extra h
  simp [decodeRaw, hd]

/-- Witness for the amended C6: the 10-byte empty transaction parses without
short reads, and appending a trailing byte leaves all parsed fields equal. -/
theorem claim6_trailing_bytes_witness :
    decodeFieldsOk [1, 0, 0, 0, 0, 0, 0, 0, 0, 0] = true ∧
    (decodeRaw ([1, 0, 0, 0, 0, 0, 0, 0, 0, 0] ++ [171])).version =
      (decodeRaw [1, 0, 0, 0, 0, 0, 0, 0, 0, 0]).version ∧
    (decodeRaw ([1, 0, 0, 0, 0, 0, 0, 0, 0, 0] ++ [171])).inputs =
      (decodeRaw [1, 0, 0, 0, 0, 0, 0, 0, 0, 0]).inputs ∧
    (decodeRaw ([1, 0, 0, 0, 0, 0, 0, 0, 0, 0] ++ [171])).outputs =
      (decodeRaw [1, 0, 0, 0, 0, 0, 0, 0, 0, 0]).outputs ∧
    (decodeRaw ([1, 0, 0, 0, 0, 0, 0, 0, 0, 0] ++ [171])).lock_time =
      (decodeRaw [1, 0, 0, 0, 0, 0, 0, 0, 0, 0]).lock_time :=
  ⟨by decide, claim6_trailing_bytes [1, 0, 0, 0, 0, 0, 0, 0, 0, 0] [171] (by decide)⟩

/-- Claim C7: no canonical-minimal-encoding check: the 3-byte encoding
[0xFD, 0x01, 0x00] and the 1-byte encoding [0x01] both decode to 1. -/
theorem claim7_non_canonical_accepted :
    (read_compact_size [253, 1, 0]).1 = (read_compact_size [1]).1 ∧
    read_compact_size [253, 1, 0] = (1, []) ∧
    read_compact_size [1] = (1, []) := by
  decide

/-- Claim C8: decoding is deterministic: decode is a pure function of the
input string, so two runs on the same string give identical results. -/
theorem claim8_deterministic (transaction_hex : String) :
    decode transaction_hex = decode transaction_hex := rfl

/-- Claim C9: read_compact_size of the empty buffer does not fail: the
zero-initialised prefix byte falls in the 0-252 arm and the result is 0,
indistinguishable from the buffer containing the single byte 0x00. -/
theorem claim9_empty_buffer_compact_size :
    read_compact_size [] = (0, []) ∧ read_compact_size [0] = (0, []) := by
  decide

/-- Claim C10: whatever compact-size length L `read_script` decodes, the
returned string has exactly 2*L characters, all from the lowercase hex table,
and the positions past the end of the buffer render as "00" (the trailing
2*(L - remaining) characters are all '0'). -/
theorem claim10_script_hex_zero_pad (s : List Nat) :
    ((read_script s).1.data).length = 2 * (read_compact_size s).1 ∧
    ((read_script s).1.data.all (fun c => decide (c ∈ hexTable))) = true ∧
    ((read_script s).1.data.drop
        (2 * min (read_compact_size s).1 (read_compact_size s).2.length) =
      List.replicate
        (2 * ((read_compact_size s).1 - (read_compact_size s).2.length)) '0') := by
  rcases hcs : read_compact_size s with ⟨L, r⟩
  have hscript : (read_script s).1 =
      hexEncode (r.take L ++ List.replicate (L - r.length) 0) := by
    simp [read_script, hcs, readFill]
  rw [hscript]
  refine ⟨?_, ?_, ?_⟩
  · rw [hexEncode, hexEncodeChars_length]
    simp [List.length_take]
    omega
  · rw [List.all_eq_true]
    intro c hc
    rw [decide_eq_true_eq]
    exact hexEncodeChars_mem _ c hc
  · have hlen : (hexEncodeChars (r.take L)).length = 2 * min L r.length := by
      rw [hexEncodeChars_length, List.length_take]
    rw [hexEncode]
    show (hexEncodeChars (r.take L ++ List.replicate (L - r.length) 0)).drop
        (2 * min L r.length) = _
    rw [hexEncodeChars_append, ← hlen, List.drop_left,
      hexEncodeChars_replicate_zero]

end TxDecoder

